import Mathlib

/-!
# Verification of the whatsappbot dispatch pipeline

Shallow embedding, in Lean 4, of the dispatch-pipeline components of the
`Jmsandi/whatsappbot` repository:

* the resilient request client `GenelineClient` (retry with exponential
  backoff) from `src/geneline/client.ts`;
* the per-conversation `RateLimiter` from `src/utils/rate-limiter.ts`;
* the `QueueManager` (per-conversation FIFO queues, global concurrency
  bound, admission scan) from `src/queue/manager.ts`;
* the `MessageWorker.processMessage` error boundary from
  `src/queue/worker.ts`;
* the `AgentLoop.run` bounded tool-calling loop from
  `src/agent/agent-loop.ts` together with `ToolRegistry.executeTool` from
  `src/agent/tools/tool-registry.ts`.

Machine integers of the source (JS numbers used as integer counters and
millisecond timestamps) are modelled as `Nat` / `Int`; `Map` objects are
modelled as insertion-ordered association lists, whose iteration order is
exactly the `Map` iteration order of the source; asynchronous completion
of in-flight work is modelled by explicit completion events on a
transition system.
-/

/-! ## Resilient request client (`GenelineClient`, src/geneline/client.ts)

`maxRetries = 3` and `baseDelay = 1000` are the literal private fields of
the class.  An attempt either succeeds with the buffered response text or
fails; a failure carries `error.response?.status` (`none` when no response
was received, i.e. a network-level failure) and the error message.  The
transport is modelled as a function from the attempt index to that
attempt's outcome. -/

def maxRetries : Nat := 3

def baseDelay : Nat := 1000

/-- The data of an `AxiosError`: `status = none` models `!error.response`
(no response received); `some s` models `error.response.status = s`. -/
structure GFailure where
  status : Option Nat
  message : String
deriving DecidableEq, Repr

/-- Outcome of one attempt of the underlying `axios` post (with the
streamed body already buffered): the resolved text or the error. -/
inductive AttemptOutcome where
  | success (text : String)
  | failure (f : GFailure)
deriving DecidableEq, Repr

/-- `GenelineClient.shouldRetry` (src/geneline/client.ts lines 198-211):
false once `attempt >= this.maxRetries`; otherwise retry on network
errors (`!error.response`), on status 429 and on 5xx statuses. -/
def shouldRetry (f : GFailure) (attempt : Nat) : Bool :=
  if maxRetries ≤ attempt then
    false
  else
    match f.status with
    | none => true
    | some status => status == 429 || (decide (500 ≤ status) && decide (status < 600))

/-- `GenelineClient.calculateBackoff`: `baseDelay * 2^attempt`. -/
def calculateBackoff (attempt : Nat) : Nat :=
  baseDelay * 2 ^ attempt

theorem shouldRetry_lt_maxRetries {f : GFailure} {attempt : Nat}
    (h : shouldRetry f attempt = true) : attempt < maxRetries := by
  by_contra hge
  simp only [shouldRetry, if_pos (Nat.le_of_not_lt hge)] at h
  exact Bool.noConfusion h

/-- Observable trace of one `sendWithRetry` call chain: the final result
(`.ok text` for a resolved promise, `.error f` for the terminal failure
that the raised `Geneline-X API error` wraps), the total number of
attempts made, and the list of backoff delays awaited between attempts. -/
structure SendTrace where
  result : Except GFailure String
  attemptsMade : Nat
  delays : List Nat
deriving Repr

/-- `GenelineClient.sendWithRetry` (src/geneline/client.ts lines 131-196):
try the attempt; on failure, if `shouldRetry` holds, await the computed
backoff and recurse with `attempt + 1`, else throw an error wrapping the
underlying failure. -/
def sendWithRetry (transport : Nat → AttemptOutcome) (attempt : Nat) : SendTrace :=
  match transport attempt with
  | .success t => { result := .ok t, attemptsMade := 1, delays := [] }
  | .failure f =>
    if h : shouldRetry f attempt then
      let rest := sendWithRetry transport (attempt + 1)
      { result := rest.result
        attemptsMade := rest.attemptsMade + 1
        delays := calculateBackoff attempt :: rest.delays }
    else
      { result := .error f, attemptsMade := 1, delays := [] }
termination_by maxRetries - attempt
decreasing_by
  have := shouldRetry_lt_maxRetries h
  omega

/-- `GenelineClient.sendMessage`: `sendWithRetry(request, 0)`. -/
def sendMessage (transport : Nat → AttemptOutcome) : SendTrace :=
  sendWithRetry transport 0

/-- A retryable attempt outcome: a failure with no response, status 429,
or a status in `[500, 600)`. -/
def isRetryableOutcome : AttemptOutcome → Bool
  | .success _ => false
  | .failure f =>
    match f.status with
    | none => true
    | some status => status == 429 || (decide (500 ≤ status) && decide (status < 600))

theorem shouldRetry_of_retryable {o : AttemptOutcome} {f : GFailure} {attempt : Nat}
    (ho : o = .failure f) (hr : isRetryableOutcome o = true) (ha : attempt < maxRetries) :
    shouldRetry f attempt = true := by
  subst ho
  simp only [isRetryableOutcome] at hr
  simp only [shouldRetry, if_neg (Nat.not_le_of_lt ha)]
  exact hr

/-- A transport that fails every attempt with HTTP 503. -/
def transport503 : Nat → AttemptOutcome :=
  fun _ => .failure { status := some 503, message := "Service Unavailable" }

/-- A transport whose first attempt fails with HTTP 404. -/
def transport404 : Nat → AttemptOutcome :=
  fun _ => .failure { status := some 404, message := "Not Found" }

theorem sendWithRetry_failure_step (transport : Nat → AttemptOutcome)
    (n : Nat) (f : GFailure) (hf : transport n = .failure f)
    (hr : shouldRetry f n = true) :
    sendWithRetry transport n =
      { result := (sendWithRetry transport (n + 1)).result
        attemptsMade := (sendWithRetry transport (n + 1)).attemptsMade + 1
        delays := calculateBackoff n :: (sendWithRetry transport (n + 1)).delays } := by
  rw [sendWithRetry, hf]
  simp only [hr]
  rfl

theorem sendWithRetry_failure_stop (transport : Nat → AttemptOutcome)
    (n : Nat) (f : GFailure) (hf : transport n = .failure f)
    (hr : shouldRetry f n = false) :
    sendWithRetry transport n = { result := .error f, attemptsMade := 1, delays := [] } := by
  rw [sendWithRetry, hf]
  simp only [hr]
  rfl

/-- C1 (amended). For every request all of whose attempts fail with a
retryable condition (no response received, HTTP 429, or HTTP status in
[500,600)), `GenelineClient.sendMessage` makes exactly 4 attempts total
(the initial attempt plus `maxRetries = 3` retries), awaiting backoff
delays of 1000ms, 2000ms and 4000ms between them, before raising a final
error wrapping the last underlying failure (the one of attempt index 3). -/
theorem sendMessage_retry_exhaustion (transport : Nat → AttemptOutcome)
    (h : ∀ n, isRetryableOutcome (transport n) = true) :
    (sendMessage transport).attemptsMade = 4 ∧
    (sendMessage transport).delays = [1000, 2000, 4000] ∧
    ∃ f, transport 3 = AttemptOutcome.failure f ∧
      (sendMessage transport).result = Except.error f := by
  have hfail : ∀ n, ∃ f, transport n = .failure f := by
    intro n
    cases htn : transport n with
    | success t =>
      have hn := h n
      rw [htn] at hn
      exact absurd hn (by simp [isRetryableOutcome])
    | failure f => exact ⟨f, rfl⟩
  obtain ⟨f0, h0⟩ := hfail 0
  obtain ⟨f1, h1⟩ := hfail 1
  obtain ⟨f2, h2⟩ := hfail 2
  obtain ⟨f3, h3⟩ := hfail 3
  have hstop : shouldRetry f3 3 = false := by
    simp [shouldRetry, maxRetries]
  have e3 := sendWithRetry_failure_stop transport 3 f3 h3 hstop
  have e2 := sendWithRetry_failure_step transport 2 f2 h2
    (shouldRetry_of_retryable h2 (h 2) (by norm_num [maxRetries]))
  have e1 := sendWithRetry_failure_step transport 1 f1 h1
    (shouldRetry_of_retryable h1 (h 1) (by norm_num [maxRetries]))
  have e0 := sendWithRetry_failure_step transport 0 f0 h0
    (shouldRetry_of_retryable h0 (h 0) (by norm_num [maxRetries]))
  have etot : sendMessage transport =
      { result := .error f3, attemptsMade := 4,
        delays := [calculateBackoff 0, calculateBackoff 1, calculateBackoff 2] } := by
    rw [sendMessage, e0, e1, e2, e3]
  refine ⟨by rw [etot], by rw [etot]; norm_num [calculateBackoff, baseDelay], f3, h3, by rw [etot]⟩

theorem sendMessage_retry_exhaustion_witness :
    (sendMessage transport503).attemptsMade = 4 ∧
    (sendMessage transport503).delays = [1000, 2000, 4000] ∧
    ∃ f, transport503 3 = AttemptOutcome.failure f ∧
      (sendMessage transport503).result = Except.error f :=
  sendMessage_retry_exhaustion transport503 (fun _ => rfl)

/-- C1, as stated, is false: with every attempt failing retryably (HTTP
503), `sendMessage` makes 4 attempts, not at most 3. -/
theorem sendMessage_three_attempt_cap_cex :
    ¬ (sendMessage transport503).attemptsMade ≤ 3 ∧
    (sendMessage transport503).attemptsMade = 4 := by
  have h4 : (sendMessage transport503).attemptsMade = 4 := by
    simp [sendMessage, sendWithRetry, transport503, shouldRetry, maxRetries]
  exact ⟨by rw [h4]; omega, h4⟩

/-- C8. If attempt 0 fails with a response whose HTTP status is neither
429 nor in [500,600), `sendMessage` fails after exactly that one attempt,
with no backoff wait and no further attempt, and the raised error wraps
that underlying failure. -/
theorem sendMessage_non_retryable_immediate (transport : Nat → AttemptOutcome)
    (f : GFailure) (s : Nat) (h0 : transport 0 = .failure f) (hs : f.status = some s)
    (h429 : s ≠ 429) (h5xx : ¬ (500 ≤ s ∧ s < 600)) :
    sendMessage transport = { result := .error f, attemptsMade := 1, delays := [] } := by
  have hnr : shouldRetry f 0 = false := by
    simp only [shouldRetry, maxRetries, hs]
    rw [if_neg (by omega)]
    simp only [Bool.or_eq_false_iff, Bool.and_eq_false_iff]
    refine ⟨by simpa using h429, ?_⟩
    rcases Nat.lt_or_ge s 500 with hlt | hge
    · left; simpa using Nat.not_le_of_lt hlt
    · right; simpa using fun hlt2 => h5xx ⟨hge, hlt2⟩
  exact sendWithRetry_failure_stop transport 0 f h0 hnr

theorem sendMessage_non_retryable_immediate_witness :
    sendMessage transport404 =
      { result := .error { status := some 404, message := "Not Found" },
        attemptsMade := 1, delays := [] } :=
  sendMessage_non_retryable_immediate transport404
    { status := some 404, message := "Not Found" } 404 rfl rfl (by decide) (by decide)

/-! ## Rate limiter (`RateLimiter`, src/utils/rate-limiter.ts)

Timestamps (`Date.now()`) are `Int` milliseconds, so that the source's
`now - entry.lastMessageTime` subtraction is translated verbatim.  The
`Map<string, RateLimitEntry>` is an insertion-ordered association list;
`Map.get` is first-match lookup and both `Map.set` and the source's
in-place mutation of a looked-up entry are value update at the key (the
key is appended when absent, exactly as `Map.set` does). -/

structure RateLimitEntry where
  lastMessageTime : Int
  messageCount : Nat
deriving DecidableEq, Repr

structure RateLimiter where
  chatLimits : List (String × RateLimitEntry)
  rateLimitMs : Int
deriving DecidableEq, Repr

/-- `Map.get` on the association list: first binding of the key. -/
def getEntry : List (String × RateLimitEntry) → String → Option RateLimitEntry
  | [], _ => none
  | (k, e) :: rest, c => if k = c then some e else getEntry rest c

/-- `Map.set` / in-place entry mutation: replace the first binding of the
key, or append a new binding when the key is absent. -/
def setEntry : List (String × RateLimitEntry) → String → RateLimitEntry → List (String × RateLimitEntry)
  | [], c, e => [(c, e)]
  | (k, e0) :: rest, c, e => if k = c then (k, e) :: rest else (k, e0) :: setEntry rest c e

/-- `RateLimiter.checkRateLimit` (src/utils/rate-limiter.ts lines 112-136):
returns the delay needed before processing (0 = process immediately) and
the updated limiter state. -/
def checkRateLimit (rl : RateLimiter) (chatId : String) (now : Int) : Int × RateLimiter :=
  match getEntry rl.chatLimits chatId with
  | none =>
    (0, { rl with chatLimits := setEntry rl.chatLimits chatId ⟨now, 1⟩ })
  | some entry =>
    let timeSinceLastMessage := now - entry.lastMessageTime
    if timeSinceLastMessage < rl.rateLimitMs then
      (rl.rateLimitMs - timeSinceLastMessage, rl)
    else
      (0, { rl with chatLimits := setEntry rl.chatLimits chatId ⟨now, entry.messageCount + 1⟩ })

/-- `RateLimiter.recordMessage` (src/utils/rate-limiter.ts lines 142-155):
overwrite `lastMessageTime` with the completion time and bump the count,
creating the entry when absent. -/
def recordMessage (rl : RateLimiter) (chatId : String) (now : Int) : RateLimiter :=
  match getEntry rl.chatLimits chatId with
  | some entry =>
    { rl with chatLimits := setEntry rl.chatLimits chatId ⟨now, entry.messageCount + 1⟩ }
  | none =>
    { rl with chatLimits := setEntry rl.chatLimits chatId ⟨now, 1⟩ }

/-- An empty rate limiter with the default 1000ms window. -/
def rlEmpty : RateLimiter := { chatLimits := [], rateLimitMs := 1000 }

/-- A rate limiter with one entry for "chat1" stamped at time 5. -/
def rlOne : RateLimiter := { chatLimits := [("chat1", ⟨5, 1⟩)], rateLimitMs := 1000 }

/-- C7. `checkRateLimit` satisfies its three-case contract: with no entry
for the conversation it creates one stamped `now` and returns 0; with an
entry younger than `rateLimitMs` it returns the remaining wait time and
leaves the state unchanged; otherwise it restamps the entry to `now`,
increments the admission count, and returns 0. -/
theorem checkRateLimit_spec (rl : RateLimiter) (chatId : String) (now : Int) :
    (getEntry rl.chatLimits chatId = none →
      checkRateLimit rl chatId now =
        (0, { rl with chatLimits := setEntry rl.chatLimits chatId ⟨now, 1⟩ })) ∧
    (∀ entry, getEntry rl.chatLimits chatId = some entry →
      (now - entry.lastMessageTime < rl.rateLimitMs →
        checkRateLimit rl chatId now =
          (rl.rateLimitMs - (now - entry.lastMessageTime), rl)) ∧
      (¬ now - entry.lastMessageTime < rl.rateLimitMs →
        checkRateLimit rl chatId now =
          (0, { rl with chatLimits := setEntry rl.chatLimits chatId ⟨now, entry.messageCount + 1⟩ }))) := by
  refine ⟨fun hnone => ?_, fun entry hsome => ⟨fun hlt => ?_, fun hge => ?_⟩⟩
  · simp only [checkRateLimit, hnone]
  · simp only [checkRateLimit, hsome, if_pos hlt]
  · simp only [checkRateLimit, hsome, if_neg hge]

theorem checkRateLimit_spec_witness :
    (checkRateLimit rlEmpty "chat1" 5 =
      (0, { chatLimits := [("chat1", ⟨5, 1⟩)], rateLimitMs := 1000 })) ∧
    (checkRateLimit rlOne "chat1" 600 =
      (405, { chatLimits := [("chat1", ⟨5, 1⟩)], rateLimitMs := 1000 })) ∧
    (checkRateLimit rlOne "chat1" 2000 =
      (0, { chatLimits := [("chat1", ⟨2000, 2⟩)], rateLimitMs := 1000 })) := by
  refine ⟨(checkRateLimit_spec rlEmpty "chat1" 5).1 rfl, ?_, ?_⟩
  · have h := ((checkRateLimit_spec rlOne "chat1" 600).2 ⟨5, 1⟩ (by decide)).1 (by decide)
    simpa using h
  · have h := ((checkRateLimit_spec rlOne "chat1" 2000).2 ⟨5, 1⟩ (by decide)).2 (by decide)
    simpa using h

/-! ## Worker error boundary (`MessageWorker.processMessage`, src/queue/worker.ts lines 68-90)

The body is

    try {
        logEvent.incomingMessage(...);          // synchronous
        if (config.agent.enabled && this.agentLoop) {
            return this.processWithAgent(chatId, messageId, messageText);
        } else {
            return this.processDirectly(...);
        }
    } catch (error) {
        logEvent.error(...);
        return this.sendFallbackMessage(chatId);
    }

Both processing branches are `async` methods, so the `return` statement
hands their *promise* back without awaiting it inside the `try` block
(there is no `await`/`return await`).  Under JavaScript async-function
semantics the `try` block then completes normally and `processMessage`'s
own promise adopts the returned promise, so a rejection of the processing
path is NOT caught by the surrounding `catch`; the `catch` only fires for
exceptions thrown synchronously before the `return` (i.e. by
`logEvent.incomingMessage` or the config/field reads).  The model takes
as inputs the outcome of that synchronous prefix and the eventual outcome
of the selected processing path's promise, and reports how many times the
fallback-sender collaborator is invoked and whether `processMessage`'s
promise resolves or rejects. -/

structure WorkerOutcome where
  fallbackCalls : Nat
  result : Except String Unit
deriving Repr

/-- `MessageWorker.processMessage`: `syncError` is the exception (if any)
thrown synchronously inside the `try` block before the `return`;
`processing` is the eventual outcome of the returned processing promise
(`processWithAgent` / `processDirectly`).  On a synchronous throw the
`catch` runs and returns the fallback send (one fallback-sender call, and
the resulting promise resolves); otherwise the returned promise is
adopted unchanged — a rejection propagates to the caller. -/
def processMessage (syncError : Option String) (processing : Except String Unit) : WorkerOutcome :=
  match syncError with
  | some _ => { fallbackCalls := 1, result := .ok () }
  | none => { fallbackCalls := 0, result := processing }

/-- C2 fails on the code: a completion-service failure surfacing from the
awaited asynchronous processing path (here, the terminal
`Geneline-X API error` raised after all retries) is not caught at the top
of `processMessage` — the rejection propagates to the caller
(`QueueManager`'s `.catch`) and the fallback-sender collaborator is never
invoked, because the `try` block returns the processing promise without
awaiting it. -/
theorem processMessage_async_rejection_escapes :
    (processMessage none (Except.error "Geneline-X API error")).fallbackCalls = 0 ∧
    (processMessage none (Except.error "Geneline-X API error")).result =
      Except.error "Geneline-X API error" :=
  ⟨rfl, rfl⟩

/-! ## Agent loop (`AgentLoop.run`, src/agent/agent-loop.ts lines 39-191)

`ToolRegistry` (src/agent/tools/tool-registry.ts) is a name-keyed map of
tools; `executeTool` looks the named tool up and catches its execution
error into an error string (a soft failure).  `parseToolCall` (regex
match of a `{...}` block containing `"tool"` followed by `JSON.parse`)
and `JSON.stringify` depend on the JavaScript JSON machinery, which is
external to this development; they are carried as components of the model
(`parseToolCall`, `stringifyToolCall`).  The completion service is the
external collaborator `GenelineClient.sendMessage`; its successive
(successful) reply texts are modelled as a function from the call index
within one `run` invocation.

The `while (iterations < this.maxIterations)` loop body ends in a
`return` on both of its branches (line 105, no tool call; line 165, after
one tool round-trip), so the body executes at most once: the loop is
entered iff `0 < maxIterations`, and the code after the loop (the static
apology) runs iff the loop was never entered.  The translation below
renders the loop as that single conditional; `iterations` is incremented
once at the top of the body. -/

inductive Role where
  | user
  | assistant
  | tool
deriving DecidableEq, Repr

/-- A conversation-history entry (src/agent/conversation-history.ts). -/
structure Message where
  role : Role
  content : String
  toolName : Option String
  timestamp : Int
deriving DecidableEq, Repr

/-- `ConversationHistory.addMessage`: push, then keep the last
`maxMessagesPerChat` entries via `history.slice(-maxMessagesPerChat)`
(JavaScript `slice(-0)` is `slice(0)`, the whole array). -/
def addMessage (history : List Message) (m : Message) (limit : Nat) : List Message :=
  let h := history ++ [m]
  if limit = 0 then h else h.drop (h.length - limit)

/-- A registered tool: its name and its `execute` function, which either
resolves with a result string or throws (modelled by `Except`). -/
structure Tool where
  name : String
  execute : List (String × String) → Except String String

/-- A parsed tool call `{thought?, tool, parameters}`. -/
structure ToolCall where
  thought : Option String
  tool : String
  parameters : List (String × String)

/-- `ToolRegistry.executeTool` (src/agent/tools/tool-registry.ts lines
54-86): look the named tool up (the registry `Map` keyed by name is the
list searched by name); an unknown name or a thrown execution error is
converted into an error string, a soft failure. -/
def executeTool (tools : List Tool) (tc : ToolCall) : String :=
  match tools.find? (fun t => t.name == tc.tool) with
  | none => "Error: Tool not found: " ++ tc.tool
  | some t =>
    match t.execute tc.parameters with
    | .ok r => r
    | .error e => "Error: " ++ ("Tool execution failed: " ++ e)

/-- The static apology returned when the loop is never entered
(src/agent/agent-loop.ts line 178). -/
def fallbackResponse : String :=
  "I apologize, but I'm having trouble processing your request. Please try rephrasing your question."

/-- One `AgentLoop` configuration together with its external
collaborators for one `run` invocation: the registered tools, the JSON
parse/stringify machinery, and the completion service's successive reply
texts (index = completion-call number within this run). -/
structure AgentModel where
  maxIterations : Nat
  historyLimit : Nat
  tools : List Tool
  parseToolCall : String → Option ToolCall
  stringifyToolCall : ToolCall → String
  completions : Nat → String

/-- The record returned by `run` (`AgentResponse`); the escalation fields
are produced by an external collaborator and never alter these three. -/
structure AgentResponse where
  response : String
  toolCallsCount : Nat
  iterations : Nat
deriving DecidableEq, Repr

/-- `run`'s returned record plus ghost observables: how many completion
calls were issued, which tool calls were handed to `executeTool` (in
order), and the final conversation history of the chat. -/
structure RunResult where
  result : AgentResponse
  completionCalls : Nat
  toolsInvoked : List ToolCall
  history : List Message

/-- `AgentLoop.run` (src/agent/agent-loop.ts lines 39-191) for one user
turn: append the user message; if the loop is entered (`0 <
maxIterations`), build the prompt and call the completion service once;
if the reply parses as a tool call, record it, execute it, call the
completion service once more on the tool-result prompt and return that
second text (one tool round-trip, `return` at line 165); otherwise return
the first text (`return` at line 105); if the loop is never entered,
return the static apology. -/
def agentRun (m : AgentModel) (history0 : List Message) (userMessage : String) (now : Int) : RunResult :=
  let h0 := addMessage history0 ⟨Role.user, userMessage, none, now⟩ m.historyLimit
  if 0 < m.maxIterations then
    let response := m.completions 0
    match m.parseToolCall response with
    | none =>
      let h1 := addMessage h0 ⟨Role.assistant, response, none, now⟩ m.historyLimit
      { result := { response := response, toolCallsCount := 0, iterations := 1 }
        completionCalls := 1, toolsInvoked := [], history := h1 }
    | some tc =>
      let h1 := addMessage h0 ⟨Role.assistant, m.stringifyToolCall tc, none, now⟩ m.historyLimit
      let toolResult := executeTool m.tools tc
      let h2 := addMessage h1 ⟨Role.tool, toolResult, some tc.tool, now⟩ m.historyLimit
      let finalResponse := m.completions 1
      let h3 := addMessage h2 ⟨Role.assistant, finalResponse, none, now⟩ m.historyLimit
      { result := { response := finalResponse, toolCallsCount := 1, iterations := 1 }
        completionCalls := 2, toolsInvoked := [tc], history := h3 }
  else
    let h1 := addMessage h0 ⟨Role.assistant, fallbackResponse, none, now⟩ m.historyLimit
    { result := { response := fallbackResponse, toolCallsCount := 0, iterations := 0 }
      completionCalls := 0, toolsInvoked := [], history := h1 }

/-- A `search_knowledge` tool resolving with a fixed knowledge-base hit. -/
def searchKnowledgeTool : Tool :=
  { name := "search_knowledge"
    execute := fun _ => .ok "Malaria is a mosquito-borne disease." }

/-- The tool call parsed from
`{"tool":"search_knowledge","parameters":{"query":"malaria"}}`. -/
def toolCallMalaria : ToolCall :=
  { thought := none, tool := "search_knowledge", parameters := [("query", "malaria")] }

/-- Agent configuration whose first completion reply parses as
`toolCallMalaria` and whose second reply is a plain answer. -/
def agentModelC4 : AgentModel :=
  { maxIterations := 5
    historyLimit := 10
    tools := [searchKnowledgeTool]
    parseToolCall := fun s => if s = "TOOLCALL" then some toolCallMalaria else none
    stringifyToolCall := fun _ => "TOOLCALL"
    completions := fun n => if n = 0 then "TOOLCALL" else "Malaria is spread by mosquitoes." }

/-- C4, as stated, is false on the code: with a first reply that is a
tool call for the registered `search_knowledge` tool, `run` returns with
`toolCallsCount = 1` but `iterations = 1`, not 2 — the tool round-trip
and the second completion call happen inside the single loop iteration. -/
theorem agentRun_tool_iterations_cex :
    (agentRun agentModelC4 [] "what is malaria" 0).result.toolCallsCount = 1 ∧
    (agentRun agentModelC4 [] "what is malaria" 0).result.iterations = 1 ∧
    ¬ (agentRun agentModelC4 [] "what is malaria" 0).result.iterations = 2 :=
  ⟨rfl, rfl, by decide⟩

/-- C4 (amended). In agent mode, when the first completion response for a
user turn parses as a JSON tool call naming a registered tool, `run`
hands exactly that tool call to the registry once, issues exactly one
further completion call, and returns the second completion's text with
`toolCallsCount = 1` and `iterations = 1` (not 2: both completion calls
happen within the single loop iteration); the registered tool's own
result is the string fed back. -/
theorem agentRun_single_tool_round (m : AgentModel) (history0 : List Message)
    (userMessage : String) (now : Int) (tc : ToolCall) (t : Tool) (r : String)
    (hmax : 0 < m.maxIterations)
    (hparse : m.parseToolCall (m.completions 0) = some tc)
    (hfind : m.tools.find? (fun t0 => t0.name == tc.tool) = some t)
    (hexec : t.execute tc.parameters = .ok r) :
    (agentRun m history0 userMessage now).toolsInvoked = [tc] ∧
    (agentRun m history0 userMessage now).completionCalls = 2 ∧
    (agentRun m history0 userMessage now).result =
      { response := m.completions 1, toolCallsCount := 1, iterations := 1 } ∧
    executeTool m.tools tc = r := by
  simp only [agentRun, if_pos hmax, hparse]
  exact ⟨trivial, trivial, trivial, by simp only [executeTool, hfind, hexec]⟩

theorem agentRun_single_tool_round_witness :
    (agentRun agentModelC4 [] "what is malaria" 0).toolsInvoked = [toolCallMalaria] ∧
    (agentRun agentModelC4 [] "what is malaria" 0).completionCalls = 2 ∧
    (agentRun agentModelC4 [] "what is malaria" 0).result =
      { response := agentModelC4.completions 1, toolCallsCount := 1, iterations := 1 } ∧
    executeTool agentModelC4.tools toolCallMalaria = "Malaria is a mosquito-borne disease." :=
  agentRun_single_tool_round agentModelC4 [] "what is malaria" 0
    toolCallMalaria searchKnowledgeTool "Malaria is a mosquito-borne disease."
    (by decide) rfl rfl rfl

/-- C9. For every user turn, `run` hands at most one tool call to the
registry and issues at most two completion calls; whenever a tool was
executed, exactly one further completion call followed it and its text is
returned verbatim — the loop never returns to the prompt-and-parse step
after executing a tool, regardless of the configured `maxIterations`. -/
theorem agentRun_at_most_one_tool_roundtrip (m : AgentModel) (history0 : List Message)
    (userMessage : String) (now : Int) :
    (agentRun m history0 userMessage now).toolsInvoked.length ≤ 1 ∧
    (agentRun m history0 userMessage now).completionCalls ≤ 2 ∧
    ((agentRun m history0 userMessage now).toolsInvoked ≠ [] →
      (agentRun m history0 userMessage now).completionCalls = 2 ∧
      (agentRun m history0 userMessage now).result.response = m.completions 1) := by
  unfold agentRun
  by_cases hmax : 0 < m.maxIterations
  · simp only [if_pos hmax]
    cases hp : m.parseToolCall (m.completions 0) <;> simp
  · simp only [if_neg hmax]
    simp

/-- Tool call named "alpha" with no parameters. -/
def toolCallAlpha : ToolCall := { thought := none, tool := "alpha", parameters := [] }

/-- Tool call named "beta" with no parameters. -/
def toolCallBeta : ToolCall := { thought := none, tool := "beta", parameters := [] }

/-- Agent configuration in which BOTH completion replies parse as tool
calls: the second one must nevertheless be returned verbatim. -/
def agentModelC9 : AgentModel :=
  { maxIterations := 5
    historyLimit := 10
    tools := [{ name := "alpha", execute := fun _ => .ok "alpha result" }]
    parseToolCall := fun s =>
      if s = "T1" then some toolCallAlpha else if s = "T2" then some toolCallBeta else none
    stringifyToolCall := fun _ => "T1"
    completions := fun n => if n = 0 then "T1" else "T2" }

theorem agentRun_at_most_one_tool_roundtrip_witness :
    (agentRun agentModelC9 [] "hi" 0).toolsInvoked.length ≤ 1 ∧
    (agentRun agentModelC9 [] "hi" 0).completionCalls ≤ 2 ∧
    ((agentRun agentModelC9 [] "hi" 0).toolsInvoked ≠ [] →
      (agentRun agentModelC9 [] "hi" 0).completionCalls = 2 ∧
      (agentRun agentModelC9 [] "hi" 0).result.response = agentModelC9.completions 1) :=
  agentRun_at_most_one_tool_roundtrip agentModelC9 [] "hi" 0

/-- C10. Whenever `maxIterations ≥ 1`, the while-loop body returns during
its first iteration on both branches, so `run` returns `iterations = 1`
and `toolCallsCount ≤ 1`; and the run takes the static-apology exit
(returning the apology with `iterations = 0`, `toolCallsCount = 0` and no
completion call) precisely when `maxIterations = 0`. -/
theorem agentRun_first_iteration_return (m : AgentModel) (history0 : List Message)
    (userMessage : String) (now : Int) :
    (0 < m.maxIterations →
      (agentRun m history0 userMessage now).result.iterations = 1 ∧
      (agentRun m history0 userMessage now).result.toolCallsCount ≤ 1) ∧
    (m.maxIterations = 0 ↔
      ((agentRun m history0 userMessage now).result.response = fallbackResponse ∧
       (agentRun m history0 userMessage now).result.iterations = 0 ∧
       (agentRun m history0 userMessage now).result.toolCallsCount = 0 ∧
       (agentRun m history0 userMessage now).completionCalls = 0)) := by
  constructor
  · intro hmax
    unfold agentRun
    simp only [if_pos hmax]
    cases hp : m.parseToolCall (m.completions 0) <;> simp
  · constructor
    · intro h0
      unfold agentRun
      simp [h0]
    · rintro ⟨-, hiter, -, -⟩
      by_contra hne
      have hmax : 0 < m.maxIterations := Nat.pos_of_ne_zero hne
      unfold agentRun at hiter
      simp only [if_pos hmax] at hiter
      cases hp : m.parseToolCall (m.completions 0) <;> rw [hp] at hiter <;> simp at hiter

/-- Agent configuration with `maxIterations = 0`. -/
def agentModelZero : AgentModel :=
  { maxIterations := 0
    historyLimit := 10
    tools := []
    parseToolCall := fun _ => none
    stringifyToolCall := fun _ => ""
    completions := fun _ => "Hello" }

theorem agentRun_first_iteration_return_witness :
    ((agentRun agentModelC9 [] "hi" 1).result.iterations = 1 ∧
     (agentRun agentModelC9 [] "hi" 1).result.toolCallsCount ≤ 1) ∧
    (agentRun agentModelZero [] "hi" 1).result.response = fallbackResponse ∧
    (agentRun agentModelZero [] "hi" 1).completionCalls = 0 := by
  refine ⟨(agentRun_first_iteration_return agentModelC9 [] "hi" 1).1 (by decide), ?_, ?_⟩
  · exact (((agentRun_first_iteration_return agentModelZero [] "hi" 1).2).mp rfl).1
  · exact (((agentRun_first_iteration_return agentModelZero [] "hi" 1).2).mp rfl).2.2.2

/-! ## Dispatch queue (`QueueManager`, src/queue/manager.ts)

State: the `Map<string, QueuedMessage[]>` of per-conversation queues (an
insertion-ordered association list, iterated in exactly the order
`this.queues.entries()` yields), the rate limiter, the `activeWorkers`
counter, the `maxConcurrency` ceiling and the stats record.  Two ghost
fields instrument the asynchronous worker calls: `inFlight` is the list
of `(chatId, message)` pairs whose `processMessage` promise is pending
(the `chatId` is the loop variable captured by the completion callbacks),
and `dispatched` is the history, in order, of all admissions.

The single-threaded event-driven execution is modelled as a transition
system: an `enq` event is an inbound `enqueue` call, a `pump` event is
any invocation of `processNext` (covering the `setTimeout` re-scans,
which may fire at any later time), and a `finish` event is the
settlement, with success or failure, of the `idx`-th pending
`processMessage` promise, running the `.then`/`.catch` and `.finally`
callbacks.  Each handler runs to completion without preemption, matching
the source's run-to-completion callbacks. -/

/-- A queued message (src/queue/manager.ts lines 5-17); media attachments
are `{filename, mime, data_base64}` triples. -/
structure QueuedMessage where
  chatId : String
  messageId : String
  messageText : String
  isGroup : Bool
  userName : Option String
  mediaAttachments : List (String × String × String)
  timestamp : Int
deriving DecidableEq, Repr

/-- `QueueStats` (src/queue/manager.ts lines 19-25). -/
structure QueueStats where
  totalQueued : Nat
  totalProcessed : Nat
  totalFailed : Nat
  currentQueueLength : Nat
  activeWorkers : Nat
deriving DecidableEq, Repr

/-- The `QueueManager` state, with the two ghost histories. -/
structure ManagerState where
  queues : List (String × List QueuedMessage)
  rateLimiter : RateLimiter
  activeWorkers : Nat
  maxConcurrency : Nat
  stats : QueueStats
  inFlight : List (String × QueuedMessage)
  dispatched : List (String × QueuedMessage)
deriving Repr

/-- `updateQueueLength`'s total: the sum of all queue lengths. -/
def totalQueueLength (qs : List (String × List QueuedMessage)) : Nat :=
  qs.foldl (fun acc p => acc + p.2.length) 0

/-- `this.queues.get(chatId) || []; queue.push(message); this.queues.set(...)`:
append to the conversation's queue, creating it (at the end of the map's
iteration order, as `Map.set` does for a fresh key) when absent. -/
def appendToQueues : List (String × List QueuedMessage) → QueuedMessage → List (String × List QueuedMessage)
  | [], m => [(m.chatId, [m])]
  | (c, q) :: rest, m =>
    if c = m.chatId then (c, q ++ [m]) :: rest else (c, q) :: appendToQueues rest m

/-- The `for (const [chatId, queue] of this.queues.entries())` scan inside
`processNext` (src/queue/manager.ts lines 80-128): skip empty queues;
for a non-empty queue ask the rate limiter — a positive delay schedules a
deferred re-scan (a later `pump` event) and continues with the next
queue; otherwise `queue.shift()` dequeues the head and the scan stops,
admitting that one message.  Returns the updated queue map and limiter
and the admitted `(chatId, message)` pair, if any. -/
def scanQueues (now : Int) :
    List (String × List QueuedMessage) → RateLimiter →
    List (String × List QueuedMessage) × RateLimiter × Option (String × QueuedMessage)
  | [], rl => ([], rl, none)
  | (chatId, q) :: rest, rl =>
    match q with
    | [] =>
      let r := scanQueues now rest rl
      ((chatId, []) :: r.1, r.2.1, r.2.2)
    | m :: ms =>
      let c := checkRateLimit rl chatId now
      if 0 < c.1 then
        let r := scanQueues now rest c.2
        ((chatId, m :: ms) :: r.1, r.2.1, r.2.2)
      else
        ((chatId, ms) :: rest, c.2, some (chatId, m))

/-- `QueueManager.processNext` (src/queue/manager.ts lines 69-129): a
no-op at capacity (`activeWorkers >= maxConcurrency`); otherwise run the
scan and, when a message is admitted, update `currentQueueLength`,
increment `activeWorkers` (mirrored into the stats) and start the worker
call (the message joins `inFlight`, and `dispatched` records the
admission).  At most one message is admitted per invocation. -/
def processNext (s : ManagerState) (now : Int) : ManagerState :=
  if s.maxConcurrency ≤ s.activeWorkers then s
  else
    let r := scanQueues now s.queues s.rateLimiter
    match r.2.2 with
    | some cm =>
      { s with
        queues := r.1
        rateLimiter := r.2.1
        activeWorkers := s.activeWorkers + 1
        inFlight := s.inFlight ++ [cm]
        dispatched := s.dispatched ++ [cm]
        stats := { s.stats with
          currentQueueLength := totalQueueLength r.1
          activeWorkers := s.activeWorkers + 1 } }
    | none => { s with queues := r.1, rateLimiter := r.2.1 }

/-- `QueueManager.enqueue` (src/queue/manager.ts lines 48-64): append to
the conversation's queue, bump `totalQueued`, recompute
`currentQueueLength`, then invoke the admission scan. -/
def enqueue (s : ManagerState) (m : QueuedMessage) (now : Int) : ManagerState :=
  let qs := appendToQueues s.queues m
  processNext
    { s with
      queues := qs
      stats := { s.stats with
        totalQueued := s.stats.totalQueued + 1
        currentQueueLength := totalQueueLength qs } }
    now

/-- The settlement callbacks of one worker promise (src/queue/manager.ts
lines 106-124): `.then` bumps `totalProcessed` and calls
`RateLimiter.recordMessage(chatId)`; `.catch` bumps `totalFailed`;
`.finally` decrements `activeWorkers` (mirrored into the stats).  The
promise leaves `inFlight`. -/
def settle (s : ManagerState) (idx : Nat) (success : Bool) (now : Int) : ManagerState :=
  match s.inFlight.get? idx with
  | none => s
  | some cm =>
    let s1 :=
      if success then
        { s with
          stats := { s.stats with totalProcessed := s.stats.totalProcessed + 1 }
          rateLimiter := recordMessage s.rateLimiter cm.1 now }
      else
        { s with stats := { s.stats with totalFailed := s.stats.totalFailed + 1 } }
    { s1 with
      inFlight := s1.inFlight.eraseIdx idx
      activeWorkers := s1.activeWorkers - 1
      stats := { s1.stats with activeWorkers := s1.activeWorkers - 1 } }

/-- Completion of the `idx`-th in-flight worker call: the settlement
callbacks followed by the `.finally` re-invocation of `processNext`. -/
def complete (s : ManagerState) (idx : Nat) (success : Bool) (now : Int) : ManagerState :=
  processNext (settle s idx success now) now

/-- An event of the single-threaded dispatch pipeline. -/
inductive QEvent where
  | enq (m : QueuedMessage) (now : Int)
  | pump (now : Int)
  | finish (idx : Nat) (success : Bool) (now : Int)
deriving Repr

/-- One run-to-completion handler execution. -/
def stepEvent (s : ManagerState) : QEvent → ManagerState
  | .enq m now => enqueue s m now
  | .pump now => processNext s now
  | .finish idx success now => complete s idx success now

/-- The freshly constructed `QueueManager` (constructor, src/queue/manager.ts
lines 40-43): empty queues, a fresh rate limiter, zero counters. -/
def initState (maxConcurrency : Nat) (rateLimitMs : Int) : ManagerState :=
  { queues := []
    rateLimiter := { chatLimits := [], rateLimitMs := rateLimitMs }
    activeWorkers := 0
    maxConcurrency := maxConcurrency
    stats := { totalQueued := 0, totalProcessed := 0, totalFailed := 0,
               currentQueueLength := 0, activeWorkers := 0 }
    inFlight := []
    dispatched := [] }

/-- The state after a trace of events from the fresh manager. -/
def runTrace (maxConcurrency : Nat) (rateLimitMs : Int) (tr : List QEvent) : ManagerState :=
  tr.foldl stepEvent (initState maxConcurrency rateLimitMs)

/-- The queue stored for a conversation (first binding, as `Map.get`). -/
def queueOf (c : String) : List (String × List QueuedMessage) → List QueuedMessage
  | [] => []
  | (k, q) :: rest => if k = c then q else queueOf c rest

/-- The messages admitted (handed to the worker) for conversation `c`, in
admission order. -/
def dispatchedFor (c : String) (s : ManagerState) : List QueuedMessage :=
  (s.dispatched.filter (fun p => p.1 = c)).map (fun p => p.2)

/-- The messages enqueued for conversation `c` by a trace, in enqueue
order. -/
def enqueuedFor (c : String) (tr : List QEvent) : List QueuedMessage :=
  tr.filterMap (fun e =>
    match e with
    | .enq m _ => if m.chatId = c then some m else none
    | _ => none)

theorem scanQueues_keys (now : Int) :
    ∀ (qs : List (String × List QueuedMessage)) (rl : RateLimiter),
      ((scanQueues now qs rl).1).map Prod.fst = qs.map Prod.fst
  | [], _ => rfl
  | (chatId, q) :: rest, rl => by
    cases q with
    | nil =>
      simp only [scanQueues, List.map_cons]
      rw [scanQueues_keys now rest rl]
    | cons m ms =>
      by_cases h : 0 < (checkRateLimit rl chatId now).1
      · simp only [scanQueues, if_pos h, List.map_cons]
        rw [scanQueues_keys now rest _]
      · simp only [scanQueues, if_neg h, List.map_cons]

theorem scanQueues_none (now : Int) :
    ∀ (qs : List (String × List QueuedMessage)) (rl : RateLimiter),
      (scanQueues now qs rl).2.2 = none → (scanQueues now qs rl).1 = qs
  | [], _, _ => rfl
  | (chatId, q) :: rest, rl, h => by
    cases q with
    | nil =>
      simp only [scanQueues] at h ⊢
      rw [scanQueues_none now rest rl h]
    | cons m ms =>
      by_cases hc : 0 < (checkRateLimit rl chatId now).1
      · simp only [scanQueues, if_pos hc] at h ⊢
        rw [scanQueues_none now rest _ h]
      · simp only [scanQueues, if_neg hc] at h
        exact Option.noConfusion h

theorem scanQueues_some_mem (now : Int) :
    ∀ (qs : List (String × List QueuedMessage)) (rl : RateLimiter)
      (km : String × QueuedMessage),
      (scanQueues now qs rl).2.2 = some km → km.1 ∈ qs.map Prod.fst
  | [], _, _, h => Option.noConfusion h
  | (chatId, q) :: rest, rl, km, h => by
    cases q with
    | nil =>
      simp only [scanQueues] at h
      exact List.mem_cons_of_mem _ (scanQueues_some_mem now rest rl km h)
    | cons m ms =>
      by_cases hc : 0 < (checkRateLimit rl chatId now).1
      · simp only [scanQueues, if_pos hc] at h
        exact List.mem_cons_of_mem _ (scanQueues_some_mem now rest _ km h)
      · simp only [scanQueues, if_neg hc] at h
        injection h with h'
        rw [← h']
        exact List.mem_cons_self _ _

theorem scanQueues_some_queueOf (now : Int) :
    ∀ (qs : List (String × List QueuedMessage)) (rl : RateLimiter)
      (k : String) (m : QueuedMessage),
      (qs.map Prod.fst).Nodup →
      (scanQueues now qs rl).2.2 = some (k, m) →
      queueOf k qs = m :: queueOf k (scanQueues now qs rl).1 ∧
      ∀ c, c ≠ k → queueOf c (scanQueues now qs rl).1 = queueOf c qs
  | [], _, _, _, _, h => Option.noConfusion h
  | (chatId, q) :: rest, rl, k, m, hnd, h => by
    have hnd1 : chatId ∉ rest.map Prod.fst := (List.nodup_cons.mp (by simpa using hnd)).1
    have hnd2 : (rest.map Prod.fst).Nodup := (List.nodup_cons.mp (by simpa using hnd)).2
    cases q with
    | nil =>
      simp only [scanQueues] at h ⊢
      have hne : chatId ≠ k := by
        intro he
        subst he
        exact hnd1 (scanQueues_some_mem now rest rl (chatId, m) h)
      obtain ⟨h1, h2⟩ := scanQueues_some_queueOf now rest rl k m hnd2 h
      constructor
      · simp only [queueOf, if_neg hne]
        exact h1
      · intro c hc
        by_cases hcc : chatId = c
        · simp only [queueOf, if_pos hcc]
        · simp only [queueOf, if_neg hcc]
          exact h2 c hc
    | cons m0 ms =>
      by_cases hc0 : 0 < (checkRateLimit rl chatId now).1
      · simp only [scanQueues, if_pos hc0] at h ⊢
        have hne : chatId ≠ k := by
          intro he
          subst he
          exact hnd1 (scanQueues_some_mem now rest _ (chatId, m) h)
        obtain ⟨h1, h2⟩ :=
          scanQueues_some_queueOf now rest (checkRateLimit rl chatId now).2 k m hnd2 h
        constructor
        · simp only [queueOf, if_neg hne]
          exact h1
        · intro c hc
          by_cases hcc : chatId = c
          · simp only [queueOf, if_pos hcc]
          · simp only [queueOf, if_neg hcc]
            exact h2 c hc
      · simp only [scanQueues, if_neg hc0] at h ⊢
        injection h with h'
        injection h' with hk hm
        subst hk
        subst hm
        constructor
        · simp [queueOf]
        · intro c hc
          have hne : ¬ chatId = c := fun he => hc he.symm
          simp only [queueOf, if_neg hne]

theorem appendToQueues_queueOf (c : String) :
    ∀ (qs : List (String × List QueuedMessage)) (m : QueuedMessage),
      queueOf c (appendToQueues qs m) =
        if m.chatId = c then queueOf c qs ++ [m] else queueOf c qs
  | [], m => by
    by_cases h : m.chatId = c
    · simp [appendToQueues, queueOf, h]
    · simp [appendToQueues, queueOf, h]
  | (k, q) :: rest, m => by
    by_cases hk : k = m.chatId
    · subst hk
      by_cases hc : m.chatId = c
      · simp [appendToQueues, queueOf, hc]
      · simp [appendToQueues, queueOf, hc]
    · by_cases hc : k = c
      · subst hc
        have : ¬ m.chatId = k := fun he => hk he.symm
        simp [appendToQueues, if_neg hk, queueOf, this]
      · simp [appendToQueues, if_neg hk, queueOf, if_neg hc,
          appendToQueues_queueOf c rest m]

theorem appendToQueues_keys :
    ∀ (qs : List (String × List QueuedMessage)) (m : QueuedMessage),
      (appendToQueues qs m).map Prod.fst =
        if m.chatId ∈ qs.map Prod.fst then qs.map Prod.fst
        else qs.map Prod.fst ++ [m.chatId]
  | [], m => by simp [appendToQueues]
  | (k, q) :: rest, m => by
    by_cases hk : k = m.chatId
    · subst hk
      simp [appendToQueues]
    · have hne : ¬ m.chatId = k := fun he => hk he.symm
      by_cases hmem : m.chatId ∈ rest.map Prod.fst
      · simp [appendToQueues, if_neg hk, appendToQueues_keys rest m, hmem, hne]
      · simp [appendToQueues, if_neg hk, appendToQueues_keys rest m, hmem, hne]

theorem appendToQueues_nodup {qs : List (String × List QueuedMessage)} (m : QueuedMessage)
    (hnd : (qs.map Prod.fst).Nodup) : ((appendToQueues qs m).map Prod.fst).Nodup := by
  rw [appendToQueues_keys qs m]
  by_cases hmem : m.chatId ∈ qs.map Prod.fst
  · simpa [hmem] using hnd
  · simp only [if_neg hmem]
    simp [List.nodup_append, hnd, hmem]

theorem dispatchedFor_append (c : String) (d : List (String × QueuedMessage))
    (km : String × QueuedMessage) :
    ((d ++ [km]).filter (fun p => p.1 = c)).map (fun p => p.2) =
      (d.filter (fun p => p.1 = c)).map (fun p => p.2) ++
        (if km.1 = c then [km.2] else []) := by
  by_cases h : km.1 = c
  · simp [List.filter_append, h]
  · simp [List.filter_append, h]

theorem processNext_queues_keys (s : ManagerState) (now : Int) :
    ((processNext s now).queues).map Prod.fst = s.queues.map Prod.fst := by
  simp only [processNext]
  split
  · rfl
  · split
    · simpa using scanQueues_keys now s.queues s.rateLimiter
    · simpa using scanQueues_keys now s.queues s.rateLimiter

theorem processNext_fifo (c : String) (s : ManagerState) (now : Int)
    (hnd : (s.queues.map Prod.fst).Nodup) :
    dispatchedFor c (processNext s now) ++ queueOf c (processNext s now).queues =
      dispatchedFor c s ++ queueOf c s.queues := by
  simp only [processNext]
  split
  · rfl
  · split
    next cm heq =>
      obtain ⟨k, m⟩ := cm
      obtain ⟨h1, h2⟩ := scanQueues_some_queueOf now s.queues s.rateLimiter k m hnd heq
      simp only [dispatchedFor]
      rw [dispatchedFor_append]
      by_cases hck : k = c
      · subst hck
        simp only [if_pos rfl]
        rw [h1, List.append_assoc]
        simp
      · simp only [if_neg hck]
        rw [h2 c (fun he => hck he.symm)]
        simp [dispatchedFor]
    next heq =>
      have hq := scanQueues_none now s.queues s.rateLimiter heq
      simp [dispatchedFor, hq]

theorem settle_queues (s : ManagerState) (idx : Nat) (success : Bool) (now : Int) :
    (settle s idx success now).queues = s.queues := by
  unfold settle
  split
  · rfl
  · cases success <;> rfl

theorem settle_dispatched (s : ManagerState) (idx : Nat) (success : Bool) (now : Int) :
    (settle s idx success now).dispatched = s.dispatched := by
  unfold settle
  split
  · rfl
  · cases success <;> rfl

theorem settle_maxConcurrency (s : ManagerState) (idx : Nat) (success : Bool) (now : Int) :
    (settle s idx success now).maxConcurrency = s.maxConcurrency := by
  unfold settle
  split
  · rfl
  · cases success <;> rfl

theorem settle_active_le (s : ManagerState) (idx : Nat) (success : Bool) (now : Int) :
    (settle s idx success now).activeWorkers ≤ s.activeWorkers := by
  unfold settle
  split
  · exact Nat.le_refl _
  · cases success <;> exact Nat.sub_le _ _

theorem processNext_maxConcurrency (s : ManagerState) (now : Int) :
    (processNext s now).maxConcurrency = s.maxConcurrency := by
  simp only [processNext]
  split
  · rfl
  · split <;> rfl

theorem processNext_active_le (s : ManagerState) (now : Int)
    (h : s.activeWorkers ≤ s.maxConcurrency) :
    (processNext s now).activeWorkers ≤ s.maxConcurrency := by
  simp only [processNext]
  split
  next hcap => exact h
  next hcap =>
    have hlt : s.activeWorkers < s.maxConcurrency := Nat.lt_of_not_le hcap
    split
    · simpa using hlt
    · exact h

theorem enqueue_queues_keys_nodup (s : ManagerState) (m : QueuedMessage) (now : Int)
    (hnd : (s.queues.map Prod.fst).Nodup) :
    (((enqueue s m now).queues).map Prod.fst).Nodup := by
  simp only [enqueue]
  rw [processNext_queues_keys]
  exact appendToQueues_nodup m hnd

theorem enqueue_fifo (c : String) (s : ManagerState) (m : QueuedMessage) (now : Int)
    (hnd : (s.queues.map Prod.fst).Nodup) :
    dispatchedFor c (enqueue s m now) ++ queueOf c (enqueue s m now).queues =
      dispatchedFor c s ++ queueOf c s.queues ++ (if m.chatId = c then [m] else []) := by
  simp only [enqueue]
  rw [processNext_fifo c _ now (appendToQueues_nodup m hnd)]
  simp only [dispatchedFor]
  rw [appendToQueues_queueOf]
  by_cases h : m.chatId = c
  · simp [h]
  · simp [h]

theorem enqueue_maxConcurrency (s : ManagerState) (m : QueuedMessage) (now : Int) :
    (enqueue s m now).maxConcurrency = s.maxConcurrency := by
  simp only [enqueue]
  rw [processNext_maxConcurrency]

theorem settle_fifo (c : String) (s : ManagerState) (idx : Nat) (success : Bool) (now : Int) :
    dispatchedFor c (settle s idx success now) ++ queueOf c (settle s idx success now).queues =
      dispatchedFor c s ++ queueOf c s.queues := by
  unfold dispatchedFor
  rw [settle_queues, settle_dispatched]

theorem stepEvent_keys_nodup (s : ManagerState) (e : QEvent)
    (hnd : (s.queues.map Prod.fst).Nodup) :
    (((stepEvent s e).queues).map Prod.fst).Nodup := by
  cases e with
  | enq m now => exact enqueue_queues_keys_nodup s m now hnd
  | pump now =>
    show (((processNext s now).queues).map Prod.fst).Nodup
    rw [processNext_queues_keys]
    exact hnd
  | finish idx success now =>
    show (((processNext (settle s idx success now) now).queues).map Prod.fst).Nodup
    rw [processNext_queues_keys, settle_queues]
    exact hnd

theorem stepEvent_maxConcurrency (s : ManagerState) (e : QEvent) :
    (stepEvent s e).maxConcurrency = s.maxConcurrency := by
  cases e with
  | enq m now => exact enqueue_maxConcurrency s m now
  | pump now => exact processNext_maxConcurrency s now
  | finish idx success now =>
    show (processNext (settle s idx success now) now).maxConcurrency = s.maxConcurrency
    rw [processNext_maxConcurrency, settle_maxConcurrency]

theorem stepEvent_active_le (s : ManagerState) (e : QEvent)
    (h : s.activeWorkers ≤ s.maxConcurrency) :
    (stepEvent s e).activeWorkers ≤ (stepEvent s e).maxConcurrency := by
  rw [stepEvent_maxConcurrency]
  cases e with
  | enq m now =>
    simp only [stepEvent, enqueue]
    exact processNext_active_le _ now h
  | pump now => exact processNext_active_le s now h
  | finish idx success now =>
    show (processNext (settle s idx success now) now).activeWorkers ≤ s.maxConcurrency
    have h1 : (settle s idx success now).activeWorkers ≤ (settle s idx success now).maxConcurrency := by
      rw [settle_maxConcurrency]
      exact Nat.le_trans (settle_active_le s idx success now) h
    have h2 := processNext_active_le (settle s idx success now) now h1
    rwa [settle_maxConcurrency] at h2

theorem foldl_stepEvent_inv {P : ManagerState → Prop}
    (hstep : ∀ s e, P s → P (stepEvent s e)) :
    ∀ (tr : List QEvent) (s : ManagerState), P s → P (tr.foldl stepEvent s)
  | [], _, h => h
  | e :: tr, s, h => foldl_stepEvent_inv hstep tr _ (hstep s e h)

theorem runTrace_nodup (maxC : Nat) (rlMs : Int) (tr : List QEvent) :
    (((runTrace maxC rlMs tr).queues).map Prod.fst).Nodup :=
  foldl_stepEvent_inv (fun s e h => stepEvent_keys_nodup s e h) tr
    (initState maxC rlMs) (by simp [initState])

theorem runTrace_maxConcurrency (maxC : Nat) (rlMs : Int) (tr : List QEvent) :
    (runTrace maxC rlMs tr).maxConcurrency = maxC :=
  foldl_stepEvent_inv (P := fun s => s.maxConcurrency = maxC)
    (fun s e h => by
      show (stepEvent s e).maxConcurrency = maxC
      rw [stepEvent_maxConcurrency]
      exact h) tr (initState maxC rlMs) rfl

theorem runTrace_active_le (maxC : Nat) (rlMs : Int) (tr : List QEvent) :
    (runTrace maxC rlMs tr).activeWorkers ≤ (runTrace maxC rlMs tr).maxConcurrency :=
  foldl_stepEvent_inv (P := fun s => s.activeWorkers ≤ s.maxConcurrency)
    (fun s e h => stepEvent_active_le s e h) tr (initState maxC rlMs) (Nat.zero_le _)

theorem runTrace_append_one (maxC : Nat) (rlMs : Int) (tr : List QEvent) (e : QEvent) :
    runTrace maxC rlMs (tr ++ [e]) = stepEvent (runTrace maxC rlMs tr) e := by
  simp [runTrace, List.foldl_append]

theorem enqueuedFor_append_one (c : String) (tr : List QEvent) (e : QEvent) :
    enqueuedFor c (tr ++ [e]) =
      enqueuedFor c tr ++
        (match e with
         | .enq m _ => if m.chatId = c then [m] else []
         | _ => []) := by
  cases e with
  | enq m now =>
    by_cases h : m.chatId = c
    · simp [enqueuedFor, List.filterMap_append, h]
    · simp [enqueuedFor, List.filterMap_append, h]
  | pump now => simp [enqueuedFor, List.filterMap_append]
  | finish idx success now => simp [enqueuedFor, List.filterMap_append]

/-- C5. Per-conversation FIFO: after any trace of enqueue, pump and
completion events from a fresh `QueueManager`, the messages admitted
(handed to the worker) for a conversation, followed by the messages still
queued for it, are exactly the messages enqueued for it, in enqueue
order — so the dispatch order for every conversation is a prefix of, and
therefore equal in order to, its enqueue order. -/
theorem queue_fifo_per_conversation (maxC : Nat) (rlMs : Int) (tr : List QEvent) (c : String) :
    dispatchedFor c (runTrace maxC rlMs tr) ++ queueOf c (runTrace maxC rlMs tr).queues =
      enqueuedFor c tr ∧
    (dispatchedFor c (runTrace maxC rlMs tr)) <+: enqueuedFor c tr := by
  have main : ∀ tr' : List QEvent,
      dispatchedFor c (runTrace maxC rlMs tr') ++ queueOf c (runTrace maxC rlMs tr').queues =
        enqueuedFor c tr' := by
    intro tr'
    induction tr' using List.reverseRecOn with
    | nil => simp [runTrace, initState, dispatchedFor, queueOf, enqueuedFor]
    | append_singleton tr0 e ih =>
      have hnd := runTrace_nodup maxC rlMs tr0
      rw [runTrace_append_one, enqueuedFor_append_one, ← ih]
      cases e with
      | enq m now =>
        simp only [stepEvent]
        rw [enqueue_fifo c (runTrace maxC rlMs tr0) m now hnd]
      | pump now =>
        simp only [stepEvent]
        rw [processNext_fifo c _ now hnd]
        simp
      | finish idx success now =>
        simp only [stepEvent, complete]
        have hnd' : (((settle (runTrace maxC rlMs tr0) idx success now).queues).map Prod.fst).Nodup := by
          rw [settle_queues]
          exact hnd
        rw [processNext_fifo c _ now hnd', settle_fifo]
        simp
  exact ⟨main tr, ⟨queueOf c (runTrace maxC rlMs tr).queues, main tr⟩⟩

theorem processNext_at_capacity (s : ManagerState) (now : Int)
    (h : s.maxConcurrency ≤ s.activeWorkers) : processNext s now = s := by
  simp only [processNext]
  rw [if_pos h]

theorem processNext_dispatched_le (s : ManagerState) (now : Int) :
    (processNext s now).dispatched.length ≤ s.dispatched.length + 1 := by
  simp only [processNext]
  split
  · exact Nat.le_succ _
  · split
    · simp
    · exact Nat.le_succ _

/-- C6. In every reachable state of the dispatch pipeline (any event
trace from a fresh manager with `maxConcurrency ≥ 1`), `activeWorkers`
never exceeds `maxConcurrency`; moreover a `processNext` invocation on a
reachable state admits no message when `activeWorkers ≥ maxConcurrency`
(it is the identity) and admits at most one message otherwise (the
admission history grows by at most one entry). -/
theorem queue_concurrency_bound (maxC : Nat) (rlMs : Int) (tr : List QEvent)
    (hpos : 1 ≤ maxC) :
    (runTrace maxC rlMs tr).activeWorkers ≤ maxC ∧
    ∀ now : Int,
      (maxC ≤ (runTrace maxC rlMs tr).activeWorkers →
        processNext (runTrace maxC rlMs tr) now = runTrace maxC rlMs tr) ∧
      (processNext (runTrace maxC rlMs tr) now).dispatched.length ≤
        (runTrace maxC rlMs tr).dispatched.length + 1 := by
  have hmax := runTrace_maxConcurrency maxC rlMs tr
  have hact := runTrace_active_le maxC rlMs tr
  rw [hmax] at hact
  refine ⟨hact, fun now => ⟨fun hcap => ?_, processNext_dispatched_le _ now⟩⟩
  exact processNext_at_capacity _ now (by rw [hmax]; exact hcap)

/-- A sample queued message for conversation "chat1". -/
def msgChat1 : QueuedMessage :=
  { chatId := "chat1", messageId := "m1", messageText := "hello", isGroup := false,
    userName := none, mediaAttachments := [], timestamp := 0 }

theorem queue_concurrency_bound_witness :
    (runTrace 1 0 [QEvent.enq msgChat1 0]).activeWorkers ≤ 1 ∧
    processNext (runTrace 1 0 [QEvent.enq msgChat1 0]) 0 =
      runTrace 1 0 [QEvent.enq msgChat1 0] := by
  have h := queue_concurrency_bound 1 0 [QEvent.enq msgChat1 0] (by decide)
  refine ⟨h.1, (h.2 0).1 ?_⟩
  decide

/-- C3 (amended). When the `idx`-th in-flight worker call for key `k`
completes: in both outcomes `activeWorkers` is decremented, the promise
leaves the in-flight set, the queues are untouched, and the admission
scan (`processNext`) is re-invoked on the settled state; on success
`totalProcessed` is incremented and `RateLimiter.recordMessage` is
applied for that conversation; on failure only `totalFailed` is
incremented — the rate limiter is left unchanged (no `recordMessage`). -/
theorem complete_spec (s : ManagerState) (idx : Nat) (success : Bool) (now : Int)
    (k : String) (m : QueuedMessage) (hget : s.inFlight.get? idx = some (k, m)) :
    complete s idx success now = processNext (settle s idx success now) now ∧
    (settle s idx success now).activeWorkers = s.activeWorkers - 1 ∧
    (settle s idx success now).inFlight = s.inFlight.eraseIdx idx ∧
    (settle s idx success now).queues = s.queues ∧
    (success = true →
      (settle s idx success now).stats.totalProcessed = s.stats.totalProcessed + 1 ∧
      (settle s idx success now).stats.totalFailed = s.stats.totalFailed ∧
      (settle s idx success now).rateLimiter = recordMessage s.rateLimiter k now) ∧
    (success = false →
      (settle s idx success now).stats.totalFailed = s.stats.totalFailed + 1 ∧
      (settle s idx success now).stats.totalProcessed = s.stats.totalProcessed ∧
      (settle s idx success now).rateLimiter = s.rateLimiter) := by
  refine ⟨rfl, ?_, ?_, ?_, ?_, ?_⟩ <;>
    simp only [settle, hget] <;> cases success <;> simp

/-- The manager state with one in-flight message for "chat1" and a fresh
rate limiter. -/
def stateChat1 : ManagerState :=
  { queues := []
    rateLimiter := { chatLimits := [], rateLimitMs := 1000 }
    activeWorkers := 1
    maxConcurrency := 5
    stats := { totalQueued := 1, totalProcessed := 0, totalFailed := 0,
               currentQueueLength := 0, activeWorkers := 1 }
    inFlight := [("chat1", msgChat1)]
    dispatched := [("chat1", msgChat1)] }

theorem complete_spec_witness :
    (settle stateChat1 0 true 5).rateLimiter = recordMessage stateChat1.rateLimiter "chat1" 5 ∧
    (settle stateChat1 0 false 5).rateLimiter = stateChat1.rateLimiter ∧
    (settle stateChat1 0 false 5).activeWorkers = stateChat1.activeWorkers - 1 ∧
    complete stateChat1 0 false 5 = processNext (settle stateChat1 0 false 5) 5 := by
  have ht := complete_spec stateChat1 0 true 5 "chat1" msgChat1 rfl
  have hf := complete_spec stateChat1 0 false 5 "chat1" msgChat1 rfl
  exact ⟨(ht.2.2.2.2.1 rfl).2.2, (hf.2.2.2.2.2 rfl).2.2, hf.2.1, hf.1⟩

/-- C3, as stated, is false on the code: after a FAILED completion the
rate limiter is untouched (`recordMessage` is only called from the
success callback).  Here a failure completion for "chat1" leaves the
limiter empty, although `recordMessage` would have created an entry. -/
theorem complete_records_on_failure_cex :
    (complete stateChat1 0 false 5).rateLimiter = { chatLimits := [], rateLimitMs := 1000 } ∧
    recordMessage { chatLimits := [], rateLimitMs := 1000 } "chat1" 5 ≠
      { chatLimits := [], rateLimitMs := 1000 } := by
  exact ⟨rfl, by decide⟩
